import Mathlib

/-!
Shallow embedding of the `TextToMIDI` class of `src/app.py` (yotsuuba/text2midi).

Times are modelled as rationals (ℚ); Python floats only ever hold sums and
products of the small constants involved here, and every claim is about the
exact arithmetic relations the code computes.

Strings are modelled as `List Char`; a phonetic unit is a `List Char`.
-/

namespace TextToMIDI

/-- Configuration record: the constructor arguments of `TextToMIDI.__init__`
(`src/app.py` lines 10-19).  `time_signature` is only forwarded to the MIDI
header and plays no role in scheduling, so it is omitted here. -/
structure Config where
  bpm : ℚ
  basePitch : ℤ
  labelSilenceDuration : ℚ
  treatUnderscoreAsRest : Bool
deriving DecidableEq, Repr

/-- `self.note_duration = 2` (line 15). -/
def noteDuration : ℚ := 2

/-- `self.silence_duration = 2` (line 16). -/
def silenceDuration : ℚ := 2

/-- `self.final_silence = 2` (line 18). -/
def finalSilence : ℚ := 2

/-- `self.special_chars['small_kana']` (line 22). -/
def smallKana : List Char := "ぁぃぅぇぉゃゅょゎァィゥェォャュョヮ".toList

/-- `self.special_chars['sokuon']` (line 23). -/
def sokuonSet : List Char := "っッ".toList

/-- `self.special_chars['small_katakana']` (line 24). -/
def smallKatakana : List Char := "ァィゥェォヵヶㇰㇱㇲㇳㇴㇵㇶㇷㇸㇹㇺㇻㇼㇽㇾㇿ".toList

/-- `self.romaji_combinations` (lines 28-45).  The Python literal lists
`'ts'` twice; as a set it holds one copy. -/
def romajiCombinations : List (List Char) :=
  ["ch", "sh", "ts", "th",
   "ky", "gy", "ny", "hy", "ry", "ty",
   "kw", "gw",
   "dz",
   "ai", "ei", "oi", "ui", "au", "ou", "eu",
   "sui", "hui", "kui", "gui", "tsui", "chui",
   "ryu", "kyu", "gyu", "hyu", "nyu",
   "sha", "shi", "shu", "sho",
   "cha", "chi", "chu", "cho",
   "tsu", "tsa", "tsi", "tso"].map String.toList

/-- The vowel test `c in 'aiueo'` (lines 75, 89). -/
def vowels : List Char := "aiueo".toList

/-- The consonant test `c in 'bcdfghjklmnpqrstvwxyz'` (line 89). -/
def consonants : List Char := "bcdfghjklmnpqrstvwxyz".toList

/-- ASCII-letter test: one character of the regex class `[a-zA-Z]`. -/
def isAsciiLetter (c : Char) : Bool :=
  ('a' ≤ c && c ≤ 'z') || ('A' ≤ c && c ≤ 'Z')

/-- `TextToMIDI.is_romaji` (lines 47-49): `re.match(r'^[a-zA-Z]+$', text)`,
i.e. the string is non-empty and consists solely of ASCII letters.  (The
regex `$` would also tolerate one trailing newline, but every string the
program passes here is whitespace-free, so that case is unreachable.) -/
def is_romaji (l : List Char) : Bool :=
  !l.isEmpty && l.all isAsciiLetter

/-- The loop body of `TextToMIDI.process_romaji` (lines 57-97), acting on the
already-lowercased character list; each recursive call is one `continue`.
`flag` is `self.treat_underscore_as_rest`. -/
def processRomajiCore (flag : Bool) : List Char → List (List Char)
  | [] => []
  | c1 :: rest =>
    if c1 = '_' then
      -- lines 59-63: emit the sentinel only when the flag is set, advance 1
      (if flag then [['_']] else []) ++ processRomajiCore flag rest
    else
      match rest with
      | c2 :: c3 :: rest3 =>
        -- lines 66-78: three-letter window exists (`i + 2 < len(text)`)
        if [c1, c2, c3] ∈ romajiCombinations then
          [c1, c2, c3] :: processRomajiCore flag rest3
        else if [c1, c2] ∈ romajiCombinations ∧ c3 ∈ vowels then
          [c1, c2, c3] :: processRomajiCore flag rest3
        -- lines 81-92: two-letter window
        else if [c1, c2] ∈ romajiCombinations then
          [c1, c2] :: processRomajiCore flag (c3 :: rest3)
        else if c1 ∈ consonants ∧ c2 ∈ vowels then
          [c1, c2] :: processRomajiCore flag (c3 :: rest3)
        -- lines 95-96: single character
        else
          [c1] :: processRomajiCore flag (c2 :: c3 :: rest3)
      | [c2] =>
        -- only the two-letter window exists (`i + 1 < len(text)`)
        if [c1, c2] ∈ romajiCombinations then
          [[c1, c2]]
        else if c1 ∈ consonants ∧ c2 ∈ vowels then
          [[c1, c2]]
        else
          [c1] :: processRomajiCore flag [c2]
      | [] => [[c1]]

/-- `TextToMIDI.process_romaji` (lines 51-98): lowercase (`text.lower()`,
line 53 — ASCII case here, the only case reachable through `process_text`),
then scan. -/
def process_romaji (flag : Bool) (l : List Char) : List (List Char) :=
  processRomajiCore flag (l.map Char.toLower)

/-- The kana loop of `TextToMIDI.process_text` (lines 106-146); each
recursive call is one iteration of the `while` loop. -/
def processKana (flag : Bool) : List Char → List (List Char)
  | [] => []
  | [c] =>
    -- last character: underscore test (lines 112-116) or emit alone (143-144)
    if c = '_' then (if flag then [['_']] else []) else [[c]]
  | c :: n :: tail =>
    if c = '_' then
      (if flag then [['_']] else []) ++ processKana flag (n :: tail)  -- 112-116
    else if n ∈ smallKana then
      [c, n] :: processKana flag tail                      -- lines 124-126
    else if c ∈ sokuonSet then
      match tail with
      | t1 :: ttail =>
        if t1 ∈ smallKana then
          [n, t1] :: processKana flag ttail                -- lines 128-130
        else
          [n] :: processKana flag (t1 :: ttail)            -- lines 131-133
      | [] => [[n]]                                        -- lines 131-133
    else if n ∈ smallKatakana then
      [c, n] :: processKana flag tail                      -- lines 134-135
    else
      [c] :: processKana flag (n :: tail)                  -- lines 137-138
termination_by l => l.length
decreasing_by all_goals simp <;> omega

/-- `TextToMIDI.process_text` (lines 100-146): dispatch on script. -/
def process_text (flag : Bool) (l : List Char) : List (List Char) :=
  if is_romaji l then process_romaji flag l else processKana flag l

/-! ### Python string helpers used by `create_midi` -/

/-- The whitespace class of Python `str.strip()` / `str.split()`
(ASCII part, which covers every character class the spec enumerates). -/
def pyIsSpace (c : Char) : Bool :=
  c = ' ' || c = '\t' || c = '\n' || c = '\r' || c = '\x0b' || c = '\x0c'

/-- Python `s.strip()`. -/
def pyStrip (l : List Char) : List Char :=
  ((l.dropWhile pyIsSpace).reverse.dropWhile pyIsSpace).reverse

/-- Python `s.split()` (no argument): split on whitespace runs, no empty
words. -/
def pyWords (l : List Char) : List (List Char) :=
  (l.splitOnP pyIsSpace).filter (fun w => w ≠ [])

/-- Python `s.split('\n')` (keeps empty lines; they are skipped later by
`if not line.strip()`). -/
def pyLines (l : List Char) : List (List Char) :=
  l.splitOn '\n'

/-! ### Timeline scheduler (`TextToMIDI.create_midi`, lines 148-231) -/

/-- One `midi.addNote(track, 0, self.base_pitch, beat_time, dur, 100)` call
(lines 178-179 / 210-211).  `startSec` records the value of `current_time`
at the call site, from which the code computes `beat_time`; the MIDI call
itself receives only the beat quantities. -/
structure Note where
  pitch : ℤ
  startBeats : ℚ
  durBeats : ℚ
  velocity : ℕ
  startSec : ℚ
deriving DecidableEq, Repr

/-- One entry of the `labels` list (lines 188-192 / 220-224).  The Python
dict key `end` is a Lean keyword, rendered here as `stop`. -/
structure Label where
  start : ℚ
  stop : ℚ
  text : List Char
deriving DecidableEq, Repr

/-- The note constructed at lines 177-179 / 209-211 when `current_time = t`. -/
def mkNote (cfg : Config) (t : ℚ) : Note :=
  { pitch := cfg.basePitch
    startBeats := t * cfg.bpm / 60
    durBeats := noteDuration * cfg.bpm / 60
    velocity := 100
    startSec := t }

/-- The inner unit loop (lines 171-180, duplicated verbatim at 203-212):
starting from cursor `t`, returns the final cursor and the emitted notes in
order. -/
def scheduleUnits (cfg : Config) : List (List Char) → ℚ → ℚ × List Note
  | [], t => (t, [])
  | u :: us, t =>
    if u = ['_'] ∧ cfg.treatUnderscoreAsRest = true then
      -- lines 173-175: skip the rest, advancing by `self.note_duration`
      scheduleUnits cfg us (t + noteDuration)
    else
      -- lines 177-180
      let r := scheduleUnits cfg us (t + noteDuration)
      (r.1, mkNote cfg t :: r.2)

/-- The mutable state of one `create_midi` run: `current_time`, `labels`,
`last_note_end` and the notes added to the `MIDIFile` so far.  `labels` is
kept newest-first (the code's `labels[-1]` is its head) and reversed on
output. -/
structure SchedState where
  currentTime : ℚ
  labels : List Label
  lastNoteEnd : ℚ
  notes : List Note
deriving DecidableEq, Repr

/-- `current_time = self.silence_duration; labels = []; last_note_end = 0`
(lines 157-159). -/
def initState : SchedState :=
  { currentTime := silenceDuration, labels := [], lastNoteEnd := 0, notes := [] }

/-- Scheduling one token plus its label: the shared body of the cluster
branch (lines 168-195, with `labelText` the stripped line) and of the
per-word loop body (lines 198-227, with `labelText = ''.join(process_text(word))`). -/
def scheduleToken (cfg : Config) (st : SchedState) (tok labelText : List Char) :
    SchedState :=
  let start := st.currentTime
  let r := scheduleUnits cfg (process_text cfg.treatUnderscoreAsRest tok) start
  -- lines 182/214: label_start = max(0, start - self.label_silence_duration)
  let ls0 := max 0 (start - cfg.labelSilenceDuration)
  -- lines 185-186/217-218: clamp to the previous label's end
  let lblStart := match st.labels with
    | prev :: _ => max ls0 prev.stop
    | [] => ls0
  -- lines 183/215: label_end = current_time + self.label_silence_duration
  let lblEnd := r.1 + cfg.labelSilenceDuration
  { currentTime := r.1 + silenceDuration          -- lines 195/227
    labels := { start := lblStart, stop := lblEnd, text := labelText } :: st.labels
    lastNoteEnd := r.1                            -- lines 194/226
    notes := st.notes ++ r.2 }

/-- One iteration of the `for line in lines` loop (lines 161-227). -/
def processLine (cfg : Config) (st : SchedState) (line : List Char) : SchedState :=
  let s := pyStrip line
  if s = [] then st                                -- lines 162-163
  else if (pyWords s).length = 1 ∧ s.length > 1 then
    scheduleToken cfg st s s                       -- cluster branch, lines 167-195
  else
    (pyWords s).foldl                              -- word branch, lines 197-227
      (fun acc w =>
        scheduleToken cfg acc w
          ((process_text cfg.treatUnderscoreAsRest w).flatten)) st

/-- The state after the whole line loop of `create_midi` on input `text`. -/
def schedAll (cfg : Config) (text : List Char) : SchedState :=
  (pyLines (pyStrip text)).foldl (processLine cfg) initState

/-- The value of `current_time` after line 229
(`current_time += self.final_silence`): the timeline cursor's final
position. -/
def finalCursor (cfg : Config) (text : List Char) : ℚ :=
  (schedAll cfg text).currentTime + finalSilence

/-- The triple returned by `create_midi` (line 231): the notes added to the
`MIDIFile`, the label list, and `last_note_end + self.final_silence`. -/
structure MidiResult where
  notes : List Note
  labels : List Label
  totalDuration : ℚ
deriving DecidableEq, Repr

/-- `TextToMIDI.create_midi` (lines 148-231). -/
def create_midi (cfg : Config) (text : List Char) : MidiResult :=
  let fin := schedAll cfg text
  { notes := fin.notes
    labels := fin.labels.reverse
    totalDuration := fin.lastNoteEnd + finalSilence }

/-! ### Fuel-indexed tokenizers

The Python tokenizers are `while i < len(text)` loops.  To state termination
as a theorem rather than assume it, the same loops are rendered with an
explicit iteration budget: `none` means the budget was exhausted before the
loop finished.  One unit of fuel is one loop iteration. -/

/-- Fuel-indexed rendition of the `process_romaji` loop. -/
def processRomajiCoreFuel (flag : Bool) : Nat → List Char → Option (List (List Char))
  | _, [] => some []
  | 0, _ :: _ => none
  | fuel + 1, c1 :: rest =>
    if c1 = '_' then
      (processRomajiCoreFuel flag fuel rest).map
        (fun us => (if flag then [['_']] else []) ++ us)
    else
      match rest with
      | c2 :: c3 :: rest3 =>
        if [c1, c2, c3] ∈ romajiCombinations then
          (processRomajiCoreFuel flag fuel rest3).map (fun us => [c1, c2, c3] :: us)
        else if [c1, c2] ∈ romajiCombinations ∧ c3 ∈ vowels then
          (processRomajiCoreFuel flag fuel rest3).map (fun us => [c1, c2, c3] :: us)
        else if [c1, c2] ∈ romajiCombinations then
          (processRomajiCoreFuel flag fuel (c3 :: rest3)).map (fun us => [c1, c2] :: us)
        else if c1 ∈ consonants ∧ c2 ∈ vowels then
          (processRomajiCoreFuel flag fuel (c3 :: rest3)).map (fun us => [c1, c2] :: us)
        else
          (processRomajiCoreFuel flag fuel (c2 :: c3 :: rest3)).map (fun us => [c1] :: us)
      | [c2] =>
        if [c1, c2] ∈ romajiCombinations then some [[c1, c2]]
        else if c1 ∈ consonants ∧ c2 ∈ vowels then some [[c1, c2]]
        else (processRomajiCoreFuel flag fuel [c2]).map (fun us => [c1] :: us)
      | [] => some [[c1]]

/-- Fuel-indexed rendition of the kana loop of `process_text`. -/
def processKanaFuel (flag : Bool) : Nat → List Char → Option (List (List Char))
  | _, [] => some []
  | 0, _ :: _ => none
  | _ + 1, [c] =>
    some (if c = '_' then (if flag then [['_']] else []) else [[c]])
  | fuel + 1, c :: n :: tail =>
    if c = '_' then
      (processKanaFuel flag fuel (n :: tail)).map
        (fun us => (if flag then [['_']] else []) ++ us)
    else if n ∈ smallKana then
      (processKanaFuel flag fuel tail).map (fun us => [c, n] :: us)
    else if c ∈ sokuonSet then
      match tail with
      | t1 :: ttail =>
        if t1 ∈ smallKana then
          (processKanaFuel flag fuel ttail).map (fun us => [n, t1] :: us)
        else
          (processKanaFuel flag fuel (t1 :: ttail)).map (fun us => [n] :: us)
      | [] => some [[n]]
    else if n ∈ smallKatakana then
      (processKanaFuel flag fuel tail).map (fun us => [c, n] :: us)
    else
      (processKanaFuel flag fuel (n :: tail)).map (fun us => [c] :: us)

/-- Fuel-indexed `process_text`. -/
def processTextFuel (flag : Bool) (fuel : Nat) (l : List Char) :
    Option (List (List Char)) :=
  if is_romaji l then processRomajiCoreFuel flag fuel (l.map Char.toLower)
  else processKanaFuel flag fuel l

/-! ### Concrete configurations used to instantiate claims -/

/-- A run configuration with underscore-as-rest disabled (the UI default:
`bpm=120`, `base_pitch=64`, `label_silence_duration=0.5`). -/
def cfgA : Config :=
  { bpm := 120, basePitch := 64, labelSilenceDuration := 1/2,
    treatUnderscoreAsRest := false }

/-- The same configuration with underscore-as-rest enabled. -/
def cfgB : Config :=
  { bpm := 120, basePitch := 64, labelSilenceDuration := 1/2,
    treatUnderscoreAsRest := true }

/-! ### Run invariants -/

/-- The internal (newest-first) label list is reverse-chained: each label's
start is at or after the next-older label's end. -/
def labelsChainRev (st : SchedState) : Prop :=
  st.labels.Chain' (fun a b => b.stop ≤ a.start)

/-- Cursor and last-note-end are non-negative. -/
def nonnegState (st : SchedState) : Prop :=
  0 ≤ st.currentTime ∧ 0 ≤ st.lastNoteEnd

/-- Every note recorded so far was built by `mkNote` at some cursor value. -/
def notesOk (cfg : Config) (st : SchedState) : Prop :=
  ∀ n ∈ st.notes, ∃ s, n = mkNote cfg s

/-- A single label is well-formed: non-negative start, start at or before
end. -/
def labelOk (l : Label) : Prop :=
  0 ≤ l.start ∧ l.start ≤ l.stop

/-- Invariant giving per-label well-formedness: non-negative cursor, the
newest label ends at most `labelSilenceDuration` past the cursor, and all
labels are well-formed. -/
def labelsOkState (cfg : Config) (st : SchedState) : Prop :=
  0 ≤ st.currentTime ∧
  (∀ prev, st.labels.head? = some prev →
    prev.stop ≤ st.currentTime + cfg.labelSilenceDuration) ∧
  ∀ l ∈ st.labels, labelOk l

/-- Invariant linking the cursor to `last_note_end`: before any label is
produced the cursor still sits at the lead-in silence with
`last_note_end = 0`; afterwards the cursor is exactly one inter-item
silence past `last_note_end`. -/
def cursorLinkState (st : SchedState) : Prop :=
  (st.labels = [] → st.currentTime = silenceDuration ∧ st.lastNoteEnd = 0) ∧
  (st.labels ≠ [] → st.currentTime = st.lastNoteEnd + silenceDuration)

/-! ## Helper lemmas -/

theorem noteDuration_nonneg : (0 : ℚ) ≤ noteDuration := by
  norm_num [noteDuration]

theorem silenceDuration_nonneg : (0 : ℚ) ≤ silenceDuration := by
  norm_num [silenceDuration]

/-- A predicate preserved by each fold step is preserved by the fold. -/
theorem foldlInv {α β : Type _} {P : α → Prop} {f : α → β → α}
    (hf : ∀ a b, P a → P (f a b)) :
    ∀ (l : List β) (a : α), P a → P (l.foldl f a) := by
  intro l
  induction l with
  | nil => intro a ha; exact ha
  | cons b bs ih => intro a ha; exact ih _ (hf a b ha)

/-- The unit loop never moves the cursor backwards. -/
theorem scheduleUnits_le (cfg : Config) :
    ∀ (us : List (List Char)) (t : ℚ), t ≤ (scheduleUnits cfg us t).1 := by
  intro us
  induction us with
  | nil => intro t; simp [scheduleUnits]
  | cons u us ih =>
    intro t
    have h1 : t ≤ t + noteDuration := by
      have := noteDuration_nonneg; linarith
    simp only [scheduleUnits]
    split
    · exact le_trans h1 (ih (t + noteDuration))
    · exact le_trans h1 (ih (t + noteDuration))

/-- Every note emitted by the unit loop is `mkNote` at some cursor value at
or after the starting cursor. -/
theorem scheduleUnits_notes (cfg : Config) :
    ∀ (us : List (List Char)) (t : ℚ) (n : Note),
      n ∈ (scheduleUnits cfg us t).2 → ∃ s, n = mkNote cfg s := by
  intro us
  induction us with
  | nil => intro t n hn; simp [scheduleUnits] at hn
  | cons u us ih =>
    intro t n hn
    simp only [scheduleUnits] at hn
    by_cases hcase : u = ['_'] ∧ cfg.treatUnderscoreAsRest = true
    · rw [if_pos hcase] at hn
      exact ih _ n hn
    · rw [if_neg hcase] at hn
      rcases List.mem_cons.mp hn with h | h
      · exact ⟨t, h⟩
      · exact ih _ n h

/-- Lifting a `scheduleToken`-preserved predicate over one line. -/
theorem stateInv_processLine {P : SchedState → Prop} (cfg : Config)
    (hP : ∀ st tok lt, P st → P (scheduleToken cfg st tok lt)) :
    ∀ (st : SchedState) (line : List Char), P st → P (processLine cfg st line) := by
  intro st line h
  dsimp only [processLine]
  split_ifs
  · exact h
  · exact hP _ _ _ h
  · exact foldlInv (fun a w ha => hP _ _ _ ha) _ _ h

/-- Lifting a `scheduleToken`-preserved predicate over the whole run. -/
theorem stateInv_schedAll {P : SchedState → Prop} (cfg : Config)
    (hP : ∀ st tok lt, P st → P (scheduleToken cfg st tok lt))
    (hinit : P initState) (text : List Char) : P (schedAll cfg text) :=
  foldlInv (fun st line h => stateInv_processLine cfg hP st line h) _ _ hinit

/-- Scheduling one token preserves the reverse chain of labels, because the
new label's start is clamped to `max _ prev.stop`. -/
theorem labelsChainRev_scheduleToken (cfg : Config) (st : SchedState)
    (tok lt : List Char) (h : labelsChainRev st) :
    labelsChainRev (scheduleToken cfg st tok lt) := by
  unfold labelsChainRev at h ⊢
  dsimp only [scheduleToken]
  cases hsl : st.labels with
  | nil => simp
  | cons prev rest =>
    rw [hsl] at h
    exact List.chain'_cons.mpr ⟨le_max_right _ _, h⟩

/-- Scheduling one token keeps cursor and last-note-end non-negative. -/
theorem nonnegState_scheduleToken (cfg : Config) (st : SchedState)
    (tok lt : List Char) (h : nonnegState st) :
    nonnegState (scheduleToken cfg st tok lt) := by
  obtain ⟨h1, h2⟩ := h
  have hle := scheduleUnits_le cfg (process_text cfg.treatUnderscoreAsRest tok)
    st.currentTime
  have hsil := silenceDuration_nonneg
  unfold nonnegState
  dsimp only [scheduleToken]
  exact ⟨by linarith, by linarith⟩

/-- Scheduling one token only appends `mkNote`-built notes. -/
theorem notesOk_scheduleToken (cfg : Config) (st : SchedState)
    (tok lt : List Char) (h : notesOk cfg st) :
    notesOk cfg (scheduleToken cfg st tok lt) := by
  unfold notesOk at h ⊢
  intro n hn
  dsimp only [scheduleToken] at hn
  rcases List.mem_append.mp hn with h1 | h1
  · exact h n h1
  · exact scheduleUnits_notes cfg _ _ n h1

/-- Scheduling one token preserves per-label well-formedness, provided the
configured label silence is non-negative. -/
theorem labelsOkState_scheduleToken (cfg : Config)
    (hls : 0 ≤ cfg.labelSilenceDuration) (st : SchedState) (tok lt : List Char)
    (h : labelsOkState cfg st) : labelsOkState cfg (scheduleToken cfg st tok lt) := by
  obtain ⟨hcur, hhead, hall⟩ := h
  have hle := scheduleUnits_le cfg (process_text cfg.treatUnderscoreAsRest tok)
    st.currentTime
  have hsil := silenceDuration_nonneg
  unfold labelsOkState labelOk
  dsimp only [scheduleToken]
  cases hsl : st.labels with
  | nil =>
    refine ⟨by linarith, ?_, ?_⟩
    · intro prev hprev
      simp only [List.head?_cons, Option.some.injEq] at hprev
      subst hprev
      dsimp only
      linarith
    · intro l hl
      dsimp only at hl
      rcases List.mem_cons.mp hl with rfl | hmem
      · dsimp only
        refine ⟨le_max_left _ _, max_le ?_ ?_⟩
        · linarith
        · linarith
      · simp at hmem
  | cons prev rest =>
    rw [hsl] at hhead hall
    have hps : prev.stop ≤ st.currentTime + cfg.labelSilenceDuration :=
      hhead prev rfl
    refine ⟨by linarith, ?_, ?_⟩
    · intro q hq
      simp only [List.head?_cons, Option.some.injEq] at hq
      subst hq
      dsimp only
      linarith
    · intro l hl
      dsimp only at hl
      rcases List.mem_cons.mp hl with rfl | hmem
      · dsimp only
        refine ⟨le_trans (le_max_left _ _) (le_max_left _ _), ?_⟩
        refine max_le (max_le ?_ ?_) ?_
        · linarith
        · linarith
        · linarith
      · rcases List.mem_cons.mp hmem with rfl | hmem2
        · exact hall l (List.mem_cons_self _ _)
        · exact hall l (List.mem_cons_of_mem _ hmem2)

/-- Scheduling one token puts the cursor exactly one inter-item silence
past `last_note_end`, and the label list becomes non-empty. -/
theorem cursorLinkState_scheduleToken (cfg : Config) (st : SchedState)
    (tok lt : List Char) (_h : cursorLinkState st) :
    cursorLinkState (scheduleToken cfg st tok lt) := by
  unfold cursorLinkState
  dsimp only [scheduleToken]
  exact ⟨fun hc => absurd hc (List.cons_ne_nil _ _), fun _ => rfl⟩

/-- With at least as much fuel as characters, the fuel-indexed romaji loop
finishes and agrees with the total function. -/
theorem processRomajiCoreFuel_eq (flag : Bool) :
    ∀ (fuel : Nat) (l : List Char), l.length ≤ fuel →
      processRomajiCoreFuel flag fuel l = some (processRomajiCore flag l) := by
  intro fuel
  induction fuel with
  | zero =>
    intro l hl
    have h0 : l = [] := List.length_eq_zero.mp (Nat.le_zero.mp hl)
    subst h0
    rfl
  | succ fuel ih =>
    intro l hl
    match l with
    | [] => rfl
    | [c1] =>
      have h0 : ([] : List Char).length ≤ fuel := by simp
      simp only [processRomajiCoreFuel, processRomajiCore]
      split_ifs <;> simp [ih _ h0]
    | [c1, c2] =>
      have hl2 : 2 ≤ fuel + 1 := by simpa using hl
      have h1 : ([c2] : List Char).length ≤ fuel := by simp; omega
      simp only [processRomajiCoreFuel, processRomajiCore]
      split_ifs <;> simp_all [processRomajiCore, ih _ h1]
    | c1 :: c2 :: c3 :: rest3 =>
      have hl3 : rest3.length + 3 ≤ fuel + 1 := by simpa using hl
      have h3 : rest3.length ≤ fuel := by omega
      have h2 : (c3 :: rest3).length ≤ fuel := by simp; omega
      have h1 : (c2 :: c3 :: rest3).length ≤ fuel := by simp; omega
      simp only [processRomajiCoreFuel, processRomajiCore]
      split_ifs <;> simp [ih _ h3, ih _ h2, ih _ h1]

/-- With at least as much fuel as characters, the fuel-indexed kana loop
finishes and agrees with the total function. -/
theorem processKanaFuel_eq (flag : Bool) :
    ∀ (fuel : Nat) (l : List Char), l.length ≤ fuel →
      processKanaFuel flag fuel l = some (processKana flag l) := by
  intro fuel
  induction fuel with
  | zero =>
    intro l hl
    have h0 : l = [] := List.length_eq_zero.mp (Nat.le_zero.mp hl)
    subst h0
    simp [processKanaFuel, processKana]
  | succ fuel ih =>
    intro l hl
    match l with
    | [] => simp [processKanaFuel, processKana]
    | [c] => simp [processKanaFuel, processKana]
    | [c, n] =>
      have hl2 : 2 ≤ fuel + 1 := by simpa using hl
      have h1 : ([n] : List Char).length ≤ fuel := by simp; omega
      simp only [processKanaFuel, processKana]
      split_ifs <;> simp_all [processKana, ih _ h1]
    | c :: n :: t1 :: ttail =>
      have hl3 : ttail.length + 3 ≤ fuel + 1 := by simpa using hl
      have h3 : ttail.length ≤ fuel := by omega
      have h2 : (t1 :: ttail).length ≤ fuel := by simp; omega
      have h1 : (n :: t1 :: ttail).length ≤ fuel := by simp; omega
      simp only [processKanaFuel, processKana]
      split_ifs <;> simp [ih _ h3, ih _ h2, ih _ h1]

theorem romajiCombinations_no_underscore :
    ∀ l ∈ romajiCombinations, '_' ∉ l := by decide

theorem vowels_ne_underscore : ∀ c ∈ vowels, c ≠ '_' := by decide

theorem consonants_ne_underscore : ∀ c ∈ consonants, c ≠ '_' := by decide

/-- The romaji loop consumes every character: concatenating its output gives
back its input, minus the underscores exactly when the rest flag is off. -/
theorem processRomajiCore_flatten (flag : Bool) :
    ∀ l : List Char, (processRomajiCore flag l).flatten =
      if flag = true then l else l.filter (fun c => c ≠ '_') := by
  intro l
  induction l using processRomajiCore.induct flag with
  | case1 => simp [processRomajiCore]
  | case2 rest ih =>
    rcases rest with _ | ⟨c2, rest2⟩
    · cases flag <;> simp [processRomajiCore]
    · rcases rest2 with _ | ⟨c3, rest3⟩
      · rw [processRomajiCore.eq_3]
        cases flag <;> simp_all
      · rw [processRomajiCore.eq_2]
        cases flag <;> simp_all
  | case3 c1 hne c2 c3 rest3 hmem ih =>
    have h1 : ¬c2 = '_' ∧ ¬c3 = '_' := by
      have h2 := romajiCombinations_no_underscore _ hmem
      simp at h2
      tauto
    cases flag <;> simp_all [processRomajiCore]
  | case4 c1 hne c2 c3 rest3 h3 hmem ih =>
    have h1 : ¬c2 = '_' ∧ ¬c3 = '_' := by
      have h2 := romajiCombinations_no_underscore _ hmem.1
      have hv := vowels_ne_underscore _ hmem.2
      simp at h2
      tauto
    cases flag <;> simp_all [processRomajiCore]
  | case5 c1 hne c2 c3 rest3 h3 h4 hmem ih =>
    have h1 : ¬c2 = '_' := by
      have h2 := romajiCombinations_no_underscore _ hmem
      simp at h2
      tauto
    cases flag <;> simp_all [processRomajiCore]
  | case6 c1 hne c2 c3 rest3 h3 h4 h5 hmem ih =>
    have h1 : ¬c2 = '_' := vowels_ne_underscore _ hmem.2
    cases flag <;> simp_all [processRomajiCore]
  | case7 c1 hne c2 c3 rest3 h3 h4 h5 h6 ih =>
    rw [processRomajiCore.eq_2, if_neg hne, if_neg h3, if_neg h4, if_neg h5,
      if_neg h6]
    cases flag <;> simp_all
  | case8 c1 hne c2 hmem =>
    have h1 : ¬c2 = '_' := by
      have h2 := romajiCombinations_no_underscore _ hmem
      simp at h2
      tauto
    cases flag <;> simp_all [processRomajiCore]
  | case9 c1 hne c2 h3 hmem =>
    have h1 : ¬c2 = '_' := vowels_ne_underscore _ hmem.2
    cases flag <;> simp_all [processRomajiCore]
  | case10 c1 hne c2 h3 h4 ih =>
    rw [processRomajiCore.eq_3, if_neg hne, if_neg h3, if_neg h4]
    cases flag <;> simp_all
  | case11 c1 hne =>
    cases flag <;> simp_all [processRomajiCore]

/-! ## Claims -/

/-- C1: for every input text and configuration, the label list returned by
one generation run satisfies `labels[i].end ≤ labels[i+1].start` for every
adjacent pair of labels (the code achieves this by clamping each candidate
label's start upward to the previous label's end). -/
theorem C1_labels_no_overlap (cfg : Config) (text : List Char) :
    (create_midi cfg text).labels.Chain' (fun a b => a.stop ≤ b.start) := by
  have h := stateInv_schedAll cfg
    (fun st tok lt hh => labelsChainRev_scheduleToken cfg st tok lt hh)
    (by simp [labelsChainRev, initState]) text
  unfold labelsChainRev at h
  dsimp only [create_midi]
  rw [List.chain'_reverse]
  exact h

/-- C2 (counterexample): with rest-handling enabled, the unit loop advances
the cursor across a rest sentinel by exactly `noteDuration` — the regular
note duration itself — so the rest advance is neither distinct from nor
strictly shorter than the note duration (though it does emit no note). -/
theorem C2_counterexample :
    (scheduleUnits cfgB [['_']] 0).1 - 0 = noteDuration ∧
    ¬((scheduleUnits cfgB [['_']] 0).1 - 0 < noteDuration) ∧
    (scheduleUnits cfgB [['_']] 0).2 = [] := by
  norm_num [scheduleUnits, cfgB, noteDuration]

/-- C2 (amended): when the scheduler processes a rest sentinel unit with
rest-handling enabled, it advances the cursor by the regular note duration
`noteDuration` and emits no note for that unit. -/
theorem C2_rest_advances_note_duration (cfg : Config) (us : List (List Char))
    (t : ℚ) (h : cfg.treatUnderscoreAsRest = true) :
    scheduleUnits cfg (['_'] :: us) t = scheduleUnits cfg us (t + noteDuration) := by
  simp [scheduleUnits, h]

/-- Witness for C2's amended theorem at a concrete configuration. -/
theorem C2_witness :
    scheduleUnits cfgB [['_']] 0 = scheduleUnits cfgB [] (0 + noteDuration) :=
  C2_rest_advances_note_duration cfgB [] 0 rfl

/-- C6: the romaji tokenizer maps `"shashi"` to exactly `["sha", "shi"]`
(two greedy 3-character combination-table matches), for either underscore
setting. -/
theorem C6_shashi (flag : Bool) :
    process_romaji flag "shashi".toList = ["sha".toList, "shi".toList] := by
  cases flag <;> decide

/-- C7: the kana tokenizer fuses `"きゃ"` into the single unit `["きゃ"]`,
and absorbs the sokuon of `"っか"`, yielding `["か"]` with no separate unit
for the sokuon, for either underscore setting. -/
theorem C7_kana_fusion (flag : Bool) :
    process_text flag "きゃ".toList = ["きゃ".toList] ∧
    process_text flag "っか".toList = ["か".toList] := by
  cases flag <;>
    exact ⟨by simp +decide [process_text, is_romaji, isAsciiLetter, processKana],
           by simp +decide [process_text, is_romaji, isAsciiLetter, processKana]⟩

/-- C8: tokenization is total — on any input string whatsoever the
tokenizer loop finishes within one iteration per character (the fuel-indexed
rendition of the loop, given `length` fuel, never exhausts its budget and
agrees with the total function), for both scripts and either underscore
setting. -/
theorem C8_tokenization_total (flag : Bool) (l : List Char) :
    processTextFuel flag l.length l = some (process_text flag l) := by
  unfold processTextFuel process_text
  split_ifs with h
  · unfold process_romaji
    exact processRomajiCoreFuel_eq flag l.length (l.map Char.toLower) (by simp)
  · exact processKanaFuel_eq flag l.length l le_rfl

/-- C3 (counterexample): on input `"a"` with the default configuration the
run returns total duration `6`, while the timeline cursor ends at `8`
(= cursor after the loop, `6`, plus the `final_silence` increment of
line 229); the returned total equals neither the final cursor position nor
that position plus the trailing-silence constant. -/
theorem C3_counterexample :
    (create_midi cfgA ['a']).totalDuration = 6 ∧
    finalCursor cfgA ['a'] = 8 ∧
    (create_midi cfgA ['a']).totalDuration ≠ finalCursor cfgA ['a'] ∧
    (create_midi cfgA ['a']).totalDuration ≠ finalCursor cfgA ['a'] + finalSilence := by
  norm_num +decide [create_midi, schedAll, finalCursor, pyLines, pyStrip, pyWords,
    pyIsSpace, initState, processLine, scheduleToken, scheduleUnits, process_text,
    process_romaji, processRomajiCore, processKana, is_romaji, isAsciiLetter,
    mkNote, cfgA, noteDuration, silenceDuration, finalSilence, List.splitOn,
    List.splitOnP, List.splitOnP.go]

/-- C3 (amended): the total duration returned equals
`last_note_end + final_silence`, not the final cursor position plus the
trailing-silence constant: when no label was produced it is exactly the
final-silence constant, and when at least one label was produced it is the
final cursor position minus the inter-item silence appended after the last
label. -/
theorem C3_total_duration (cfg : Config) (text : List Char) :
    ((create_midi cfg text).labels = [] →
      (create_midi cfg text).totalDuration = finalSilence) ∧
    ((create_midi cfg text).labels ≠ [] →
      (create_midi cfg text).totalDuration = finalCursor cfg text - silenceDuration) := by
  have h := stateInv_schedAll cfg
    (fun st tok lt hh => cursorLinkState_scheduleToken cfg st tok lt hh)
    ⟨fun _ => ⟨rfl, rfl⟩, fun hne => absurd rfl hne⟩ text
  obtain ⟨hnil, hcons⟩ := h
  dsimp only [create_midi, finalCursor]
  constructor
  · intro he
    rw [List.reverse_eq_nil_iff] at he
    obtain ⟨-, h0⟩ := hnil he
    rw [h0, zero_add]
  · intro hne
    rw [Ne, List.reverse_eq_nil_iff] at hne
    have hcur := hcons hne
    rw [hcur]
    ring

/-- Witness for C3's amended theorem: empty input gives total `finalSilence`;
input `"a"` gives total `finalCursor - silenceDuration`. -/
theorem C3_witness :
    (create_midi cfgA []).totalDuration = finalSilence ∧
    (create_midi cfgA ['a']).totalDuration = finalCursor cfgA ['a'] - silenceDuration :=
  ⟨(C3_total_duration cfgA []).1 (by
      norm_num +decide [create_midi, schedAll, pyLines, pyStrip, pyWords,
        pyIsSpace, initState, processLine, scheduleToken, scheduleUnits,
        List.splitOn, List.splitOnP, List.splitOnP.go]),
   (C3_total_duration cfgA ['a']).2 (by
      norm_num +decide [create_midi, schedAll, pyLines, pyStrip, pyWords,
        pyIsSpace, initState, processLine, scheduleToken, scheduleUnits,
        process_text, process_romaji, processRomajiCore, is_romaji,
        isAsciiLetter, mkNote, cfgA, noteDuration, silenceDuration,
        List.splitOn, List.splitOnP, List.splitOnP.go])⟩

/-- C4 (counterexample): with rest-handling disabled, the romaji tokenizer
drops underscores entirely: on input `"_"` it returns no units at all, so
concatenating the output does not reproduce the (lowercased) input. -/
theorem C4_counterexample :
    process_romaji false ['_'] = [] ∧
    (['_'].map Char.toLower) = ['_'] ∧
    (process_romaji false ['_']).flatten ≠ ['_'].map Char.toLower := by
  decide

/-- C4 (amended): for every input over Latin letters and `'_'`, the romaji
tokenizer's output covers the input in order with no characters dropped
except underscores when rest-handling is disabled: concatenating the units
reproduces the lowercased input when the flag is set, and the lowercased
input with underscores removed when it is not. -/
theorem C4_concat_covers_input (flag : Bool) (l : List Char)
    (hdom : ∀ c ∈ l, isAsciiLetter c = true ∨ c = '_') :
    (process_romaji flag l).flatten =
      if flag = true then l.map Char.toLower
      else (l.map Char.toLower).filter (fun c => c ≠ '_') := by
  unfold process_romaji
  exact processRomajiCore_flatten flag (l.map Char.toLower)

/-- Witness for C4's amended theorem at input `"A_b"` with the flag off. -/
theorem C4_witness :
    (process_romaji false ['A', '_', 'b']).flatten =
      if false = true then ['A', '_', 'b'].map Char.toLower
      else (['A', '_', 'b'].map Char.toLower).filter (fun c => c ≠ '_') :=
  C4_concat_covers_input false ['A', '_', 'b'] (by decide)

/-- C5: every note emitted by a run has duration in beats equal to
`noteDuration * bpm / 60`, which is strictly positive whenever `bpm > 0`,
and its start in beats equals its cursor position in seconds times
`bpm / 60`. -/
theorem C5_note_beats (cfg : Config) (text : List Char) (n : Note)
    (hn : n ∈ (create_midi cfg text).notes) :
    n.durBeats = noteDuration * cfg.bpm / 60 ∧
    n.startBeats = n.startSec * cfg.bpm / 60 ∧
    (0 < cfg.bpm → 0 < n.durBeats) := by
  have h := stateInv_schedAll cfg
    (fun st tok lt hh => notesOk_scheduleToken cfg st tok lt hh)
    (by intro n hn; simp [initState] at hn) text
  dsimp only [create_midi] at hn
  obtain ⟨s, rfl⟩ := h n hn
  refine ⟨rfl, rfl, fun hb => ?_⟩
  show 0 < noteDuration * cfg.bpm / 60
  apply div_pos
  · exact mul_pos (by norm_num [noteDuration]) hb
  · norm_num

/-- Witness for C5 at the single note of the run on `"a"`. -/
theorem C5_witness :
    (mkNote cfgA 2).durBeats = noteDuration * cfgA.bpm / 60 ∧
    (mkNote cfgA 2).startBeats = (mkNote cfgA 2).startSec * cfgA.bpm / 60 ∧
    (0 < cfgA.bpm → 0 < (mkNote cfgA 2).durBeats) :=
  C5_note_beats cfgA ['a'] (mkNote cfgA 2) (by
    norm_num +decide [create_midi, schedAll, pyLines, pyStrip, pyWords,
      pyIsSpace, initState, processLine, scheduleToken, scheduleUnits,
      process_text, process_romaji, processRomajiCore, is_romaji,
      isAsciiLetter, mkNote, cfgA, noteDuration, silenceDuration,
      List.splitOn, List.splitOnP, List.splitOnP.go])

/-- C9 (counterexample): for empty input the run returns exactly the
final-silence constant `2`, which is smaller than lead silence + trail
silence + final silence (`0.5 + 0.5 + 2 = 3` at the default label
silence). -/
theorem C9_counterexample :
    (create_midi cfgA []).totalDuration = 2 ∧
    cfgA.labelSilenceDuration + cfgA.labelSilenceDuration + finalSilence = 3 ∧
    ¬(cfgA.labelSilenceDuration + cfgA.labelSilenceDuration + finalSilence ≤
        (create_midi cfgA []).totalDuration) := by
  norm_num +decide [create_midi, schedAll, pyLines, pyStrip, pyWords,
    pyIsSpace, initState, processLine, scheduleToken, scheduleUnits,
    cfgA, finalSilence, List.splitOn, List.splitOnP, List.splitOnP.go]

/-- C9 (amended): for every input text, including the empty text, the total
duration returned is at least the final-silence constant (the configured
lead/trail label silences are not part of this lower bound: empty input
returns exactly `finalSilence`). -/
theorem C9_total_ge_final_silence (cfg : Config) (text : List Char) :
    finalSilence ≤ (create_midi cfg text).totalDuration := by
  have h := stateInv_schedAll cfg
    (fun st tok lt hh => nonnegState_scheduleToken cfg st tok lt hh)
    ⟨by norm_num [initState, silenceDuration], le_refl 0⟩ text
  obtain ⟨h1, h2⟩ := h
  dsimp only [create_midi]
  linarith

/-- C10: every label produced by a generation run with a non-negative
configured label silence satisfies `0 ≤ start` and `start ≤ end`. -/
theorem C10_label_bounds (cfg : Config) (text : List Char)
    (hls : 0 ≤ cfg.labelSilenceDuration) :
    ∀ l ∈ (create_midi cfg text).labels, 0 ≤ l.start ∧ l.start ≤ l.stop := by
  have h := stateInv_schedAll cfg
    (fun st tok lt hh => labelsOkState_scheduleToken cfg hls st tok lt hh)
    (by
      refine ⟨by norm_num [initState, silenceDuration], ?_, ?_⟩
      · intro prev hprev
        simp [initState] at hprev
      · intro l hl
        simp [initState] at hl) text
  intro l hl
  dsimp only [create_midi] at hl
  rw [List.mem_reverse] at hl
  exact h.2.2 l hl

/-- Witness for C10 at the single label of the run on `"a"`. -/
theorem C10_witness :
    0 ≤ ({ start := 3/2, stop := 9/2, text := ['a'] } : Label).start ∧
    ({ start := 3/2, stop := 9/2, text := ['a'] } : Label).start ≤
      ({ start := 3/2, stop := 9/2, text := ['a'] } : Label).stop :=
  C10_label_bounds cfgA ['a'] (by norm_num [cfgA])
    { start := 3/2, stop := 9/2, text := ['a'] } (by
      norm_num +decide [create_midi, schedAll, pyLines, pyStrip, pyWords,
        pyIsSpace, initState, processLine, scheduleToken, scheduleUnits,
        process_text, process_romaji, processRomajiCore, is_romaji,
        isAsciiLetter, mkNote, cfgA, noteDuration, silenceDuration,
        List.splitOn, List.splitOnP, List.splitOnP.go])

end TextToMIDI
